import Mathlib

/-!
Shallow embedding of the telemetry-vault background data pipeline
(src/src/workers/telemetryWorker.ts) and the consumer-side bucket-width
policy (useTelemetryData), together with theorems settling the spec claims.

Machine numbers are embedded exactly: JavaScript 32-bit integer mixing is
modelled on `Nat` with explicit `% 2^32`, timestamps are `Int`
(epoch milliseconds), and event values are `Rat` (the JS doubles of the
source take only small decimal values, which `Rat` represents exactly).
-/

/-! ## Deterministic random source (Mulberry32, telemetryWorker.ts lines 36-43) -/

/-- Modulus for JavaScript 32-bit unsigned coercions (`>>> 0`, `Math.imul`). -/
def UINT32 : Nat := 4294967296

/-- Additive constant of the Mulberry32 stream (`seed += 0x6D2B79F5`). -/
def MULBERRY_DELTA : Nat := 0x6D2B79F5

/-- JavaScript `Math.imul`: 32-bit wrapping multiplication. -/
def imul (a b : Nat) : Nat := (a * b) % UINT32

/-- One Mulberry32 output word computed from the (already advanced) state,
mirroring the body of the closure returned by `createRng`. -/
def mulberryOut (s : Nat) : Nat :=
  let t0 := s % UINT32
  let t1 := imul (t0 ^^^ (t0 >>> 15)) (t0 ||| 1)
  let t2 := t1 ^^^ ((t1 + imul (t1 ^^^ (t1 >>> 7)) (t1 ||| 61)) % UINT32)
  (t2 ^^^ (t2 >>> 14)) % UINT32

/-- One call of the `createRng` closure: the captured seed is advanced by
`MULBERRY_DELTA`; the returned value is the mixed word divided by `2^32`. -/
def rngNext (s : Nat) : Nat × ℚ :=
  (s + MULBERRY_DELTA, (mulberryOut (s + MULBERRY_DELTA) : ℚ) / (UINT32 : ℚ))

/-- State of the random source after `n` calls, starting from `seed`. -/
def rngState (seed : Nat) : Nat → Nat
  | 0 => seed
  | n + 1 => (rngNext (rngState seed n)).1

/-- The `n`-th value (0-based) produced by a random source built from `seed`. -/
def rngStream (seed : Nat) (n : Nat) : ℚ := (rngNext (rngState seed n)).2

/-! ## Data model (src/src/types/telemetry.ts) -/

/-- Closed set of event types. -/
inductive EventType where
  | log | metric | trace | error | span
  deriving DecidableEq, Repr

/-- Closed set of service names. -/
inductive ServiceName where
  | apiGateway | authService | userService | paymentService | notificationService
  deriving DecidableEq, Repr

/-- Closed set of severity levels. -/
inductive Level where
  | debug | info | warn | error
  deriving DecidableEq, Repr

/-- One telemetry event record.  `level` and `message` are optional in the
TypeScript interface; the worker's generator always populates them. -/
structure TelemetryEvent where
  id : String
  timestamp : Int
  value : ℚ
  eventType : EventType
  service : ServiceName
  level : Option Level
  message : Option String
  deriving DecidableEq, Repr

/-- A pair of epoch-millisecond bounds.  The source interface calls the
second field `end`, a reserved word here. -/
structure TimeRange where
  start : Int
  endTime : Int
  deriving DecidableEq, Repr

/-- The filter state passed with each filter request. -/
structure FilterState where
  timeRange : TimeRange
  eventTypes : List EventType
  services : List ServiceName
  searchQuery : String
  deriving DecidableEq, Repr

/-- One aggregated bucket as produced by `aggregateEvents`. -/
structure AggregatedData where
  timestamp : Int
  count : Nat
  avg : ℚ
  sum : ℚ
  min : ℚ
  max : ℚ
  p95 : ℚ
  deriving DecidableEq, Repr

/-! ## Filter engine (telemetryWorker.ts lines 98-125) -/

/-- JavaScript string truthiness of the optional message field
(`event.message` is falsy when absent or empty). -/
def messageTruthy : Option String → Bool
  | some m => decide (m ≠ "")
  | none => false

/-- The text of an optional message, defaulting to the empty string. -/
def messageText : Option String → String
  | some m => m
  | none => ""

/-- Case folding used for the case-insensitive search (`toLowerCase`);
ASCII-faithful rendering of the JavaScript call. -/
def strLower (s : String) : String := s.toLower

/-- JavaScript `String.prototype.includes`: substring containment. -/
def strIncludes (hay needle : String) : Bool := decide (needle.data <:+: hay.data)

/-- The per-event predicate of `filterEvents`, with the source's
early-return chain rendered as nested conditionals. -/
def eventPasses (filters : FilterState) (searchLower : String) (event : TelemetryEvent) : Bool :=
  if event.timestamp < filters.timeRange.start || event.timestamp > filters.timeRange.endTime then
    false
  else if filters.eventTypes.length > 0 && !(filters.eventTypes.contains event.eventType) then
    false
  else if filters.services.length > 0 && !(filters.services.contains event.service) then
    false
  else if decide (filters.searchQuery ≠ "") && messageTruthy event.message &&
      !(strIncludes (strLower (messageText event.message)) searchLower) then
    false
  else
    true

/-- The filter engine: `events.filter(...)` with the predicate above. -/
def filterEvents (events : List TelemetryEvent) (filters : FilterState) : List TelemetryEvent :=
  let searchLower := strLower filters.searchQuery
  events.filter (eventPasses filters searchLower)

/-- Declarative conjunction-of-clauses form of the filter predicate, as the
spec words it, with the search clause as the code actually behaves: only an
event carrying a non-empty message can be rejected by the search clause. -/
def matchesFilter (filters : FilterState) (event : TelemetryEvent) : Prop :=
  (filters.timeRange.start ≤ event.timestamp ∧ event.timestamp ≤ filters.timeRange.endTime) ∧
  (filters.eventTypes ≠ [] → event.eventType ∈ filters.eventTypes) ∧
  (filters.services ≠ [] → event.service ∈ filters.services) ∧
  (filters.searchQuery ≠ "" → ∀ m, event.message = some m → m ≠ "" →
    strIncludes (strLower m) (strLower filters.searchQuery) = true)

instance (filters : FilterState) (event : TelemetryEvent) :
    Decidable (matchesFilter filters event) := by
  unfold matchesFilter; infer_instance

theorem if_chain_false (c r : Bool) : (if c = true then false else r) = (!c && r) := by
  cases c <;> simp

theorem if_chain_last (c : Bool) : (if c = true then false else true) = !c := by
  cases c <;> simp

theorem timeClause_iff (f : FilterState) (e : TelemetryEvent) :
    (decide (e.timestamp < f.timeRange.start) ||
        decide (e.timestamp > f.timeRange.endTime)) = false ↔
      f.timeRange.start ≤ e.timestamp ∧ e.timestamp ≤ f.timeRange.endTime := by
  rw [Bool.or_eq_false_iff]
  simp only [decide_eq_false_iff_not, not_lt, gt_iff_lt]

theorem memClause_iff {α : Type} [DecidableEq α] (l : List α) (x : α) :
    (decide (l.length > 0) && !(l.contains x)) = false ↔ (l ≠ [] → x ∈ l) := by
  rw [Bool.and_eq_false_iff]
  simp only [decide_eq_false_iff_not, not_lt, Nat.le_zero, List.length_eq_zero,
    Bool.not_eq_false']
  constructor
  · rintro (h | h) hne
    · exact absurd h hne
    · simpa using h
  · intro h
    by_cases hl : l = []
    · exact Or.inl hl
    · exact Or.inr (by simpa using h hl)

theorem searchClause_iff (q sl : String) (msg : Option String) :
    (decide (q ≠ "") && messageTruthy msg &&
        !(strIncludes (strLower (messageText msg)) sl)) = false ↔
      (q ≠ "" → ∀ m, msg = some m → m ≠ "" → strIncludes (strLower m) sl = true) := by
  cases msg with
  | none => simp [messageTruthy]
  | some m =>
    simp only [messageTruthy, messageText, Bool.and_eq_false_iff,
      decide_eq_false_iff_not, not_not, Bool.not_eq_false', Option.some.injEq]
    constructor
    · rintro ((h | h) | h) hq m2 hm2 hm2ne
      · exact absurd h hq
      · subst hm2; exact absurd h hm2ne
      · subst hm2; exact h
    · intro h
      by_cases hq : q = ""
      · exact Or.inl (Or.inl hq)
      · by_cases hm : m = ""
        · exact Or.inl (Or.inr hm)
        · exact Or.inr (h hq m rfl hm)

theorem eventPasses_iff (filters : FilterState) (event : TelemetryEvent) :
    eventPasses filters (strLower filters.searchQuery) event = true ↔
      matchesFilter filters event := by
  unfold eventPasses matchesFilter
  simp only [if_chain_false, if_chain_last]
  simp only [Bool.and_eq_true, Bool.not_eq_true', and_true]
  exact and_congr (timeClause_iff filters event)
    (and_congr (memClause_iff filters.eventTypes event.eventType)
      (and_congr (memClause_iff filters.services event.service)
        (searchClause_iff filters.searchQuery (strLower filters.searchQuery) event.message)))


/-! ## Event generator (telemetryWorker.ts lines 16-96) -/

/-- Closed pool of event types drawn from (`EVENT_TYPES`). -/
def EVENT_TYPES : List EventType := [.log, .metric, .trace, .error, .span]

/-- Closed pool of services drawn from (`SERVICES`). -/
def SERVICES : List ServiceName :=
  [.apiGateway, .authService, .userService, .paymentService, .notificationService]

/-- Closed pool of severity levels drawn from (`LEVELS`). -/
def LEVELS : List Level := [.debug, .info, .warn, .error]

/-- Fixed pool of canned messages (`SAMPLE_MESSAGES`). -/
def SAMPLE_MESSAGES : List String :=
  [ "Request processed successfully"
  , "Database query completed"
  , "Cache hit"
  , "Cache miss - fetching from origin"
  , "Authentication validated"
  , "Rate limit check passed"
  , "Connection established"
  , "Timeout waiting for response"
  , "Retrying failed request"
  , "Batch job started"
  , "Webhook delivered"
  , "Message queued for processing" ]

/-- Digit character of JavaScript `Number.prototype.toString(36)`. -/
def digit36 (n : Nat) : Char :=
  if n < 10 then Char.ofNat (48 + n) else Char.ofNat (87 + n)

/-- Digit accumulation for `toBase36`. -/
def toBase36Aux : Nat → List Char → List Char
  | 0, acc => acc
  | n + 1, acc => toBase36Aux ((n + 1) / 36) (digit36 ((n + 1) % 36) :: acc)
decreasing_by exact Nat.div_lt_self (Nat.succ_pos _) (by norm_num)

/-- JavaScript `n.toString(36)` for a natural number. -/
def toBase36 (n : Nat) : String :=
  if n = 0 then "0" else String.mk (toBase36Aux n [])

/-- Array indexing draw `LIST[Math.floor(rng() * LIST.length)]`. -/
def drawIndex (v : ℚ) (len : Nat) : Nat := (⌊v * (len : ℚ)⌋).toNat

/-- Value generation, type-dependent (`generateValue`). -/
def generateValue (eventType : EventType) (v : ℚ) : ℚ :=
  match eventType with
  | .metric => (⌊v * 1000⌋ : ℚ) / 10
  | .trace => (⌊v * 500⌋ : ℚ) + 1
  | .span => (⌊v * 500⌋ : ℚ) + 1
  | .error => (⌊v * 500⌋ : ℚ) + 400
  | .log => (⌊v * 100⌋ : ℚ)

/-- One loop-body iteration of `generateEvents` building event `i`,
threading the rng state through the eight draws in source order:
event type, service, cluster center, cluster spread, the fresh uniform
draw of the normalized time, value, level, message. `salt` is the
`Date.now()` value rendered into the event id. -/
def genOne (salt : Nat) (startTime timeSpan : Int) (i : Nat) (s0 : Nat) :
    Nat × TelemetryEvent :=
  let p1 := rngNext s0
  let p2 := rngNext p1.1
  let p3 := rngNext p2.1
  let p4 := rngNext p3.1
  let p5 := rngNext p4.1
  let p6 := rngNext p5.1
  let p7 := rngNext p6.1
  let p8 := rngNext p7.1
  let eventType := EVENT_TYPES.getD (drawIndex p1.2 EVENT_TYPES.length) .log
  let service := SERVICES.getD (drawIndex p2.2 SERVICES.length) .apiGateway
  let clusterCenter := p3.2
  let clusterSpread := p4.2 * (1 / 10)
  let normalizedTime := max 0 (min 1 (clusterCenter + (p5.2 - 1 / 2) * clusterSpread))
  (p8.1,
   { id := "evt_" ++ toBase36 i ++ "_" ++ toBase36 salt
     timestamp := startTime + ⌊normalizedTime * (timeSpan : ℚ)⌋
     value := generateValue eventType p6.2
     eventType := eventType
     service := service
     level := some (LEVELS.getD (drawIndex p7.2 LEVELS.length) .debug)
     message := some (SAMPLE_MESSAGES.getD (drawIndex p8.2 SAMPLE_MESSAGES.length) "") })

/-- Timestamp order used by the final `events.sort`. -/
def tsLE (a b : TelemetryEvent) : Prop := a.timestamp ≤ b.timestamp

instance : DecidableRel tsLE := fun a b => Int.decLe a.timestamp b.timestamp

/-- One step of the generation loop: thread the rng state and append the
new event. -/
def genStep (salt : Nat) (startTime timeSpan : Int)
    (acc : Nat × List TelemetryEvent) (i : Nat) : Nat × List TelemetryEvent :=
  let p := genOne salt startTime timeSpan i acc.1
  (p.1, acc.2 ++ [p.2])

/-- The event generator (`generateEvents`): loop over `count` indices
threading the rng state, then sort ascending by timestamp.  `seed` is the
`Date.now()` captured by `createRng` and `salt` the `Date.now()` rendered
into ids: the two hidden clock inputs of the source made explicit. -/
def generateEvents (seed salt : Nat) (count : Nat) (startTime endTime : Int) :
    List TelemetryEvent :=
  let timeSpan := endTime - startTime
  List.insertionSort tsLE
    (((List.range count).foldl (genStep salt startTime timeSpan)
      ((seed, []) : Nat × List TelemetryEvent)).2)

/-! ## Aggregation engine (telemetryWorker.ts lines 127-170) -/

/-- Bucket key of an event
(`Math.floor(event.timestamp / bucketSize) * bucketSize`): floor division
toward negative infinity, then rescale. -/
def bucketKey (bucketSize : Int) (timestamp : Int) : Int :=
  timestamp.fdiv bucketSize * bucketSize

/-- Append one value to its bucket in the insertion-ordered bucket map
(the `Map.get` / `push` / `Map.set` branch of the grouping loop). -/
def insertBucket (k : Int) (v : ℚ) : List (Int × List ℚ) → List (Int × List ℚ)
  | [] => [(k, [v])]
  | (k2, vs) :: rest =>
    if k2 = k then (k2, vs ++ [v]) :: rest else (k2, vs) :: insertBucket k v rest

/-- Grouping loop of `aggregateEvents`: values grouped into time buckets,
keys in first-seen order as a JavaScript `Map` iterates. -/
def buildBuckets (bucketSize : Int) (events : List TelemetryEvent) : List (Int × List ℚ) :=
  events.foldl (fun bs e => insertBucket (bucketKey bucketSize e.timestamp) e.value bs) []

/-- Statistics of one bucket (body of the result loop): sort values
ascending, then count / sum / avg / min / max / nearest-rank p95. -/
def aggregateBucket (timestamp : Int) (values : List ℚ) : AggregatedData :=
  let sorted := List.insertionSort (fun a b => a ≤ b) values
  let sum := sorted.foldl (fun acc v => acc + v) 0
  let count := sorted.length
  let p95Index := (⌊(count : ℚ) * (95 / 100)⌋).toNat
  { timestamp := timestamp
    count := count
    sum := sum
    avg := sum / (count : ℚ)
    min := sorted.getD 0 0
    max := sorted.getD (sorted.length - 1) 0
    p95 := sorted.getD (min p95Index (sorted.length - 1)) 0 }

/-- Bucket-timestamp order used by the final `result.sort`. -/
def aggLE (a b : AggregatedData) : Prop := a.timestamp ≤ b.timestamp

instance : DecidableRel aggLE := fun a b => Int.decLe a.timestamp b.timestamp

/-- The aggregation engine (`aggregateEvents`): short-circuit on empty
input, group, compute statistics per bucket, sort by bucket timestamp. -/
def aggregateEvents (events : List TelemetryEvent) (bucketSize : Int) : List AggregatedData :=
  if events.length = 0 then []
  else
    let buckets := buildBuckets bucketSize events
    let result := buckets.map (fun b => aggregateBucket b.1 b.2)
    List.insertionSort aggLE result

/-! ## Consumer-side bucket-width policy (useTelemetryData) -/

/-- One minute in milliseconds (`MINUTE`). -/
def MINUTE : Int := 60 * 1000

/-- One hour in milliseconds (`HOUR`). -/
def HOUR : Int := 60 * MINUTE

/-- Bucket width chosen from the active time range's span (the
`bucketSize` if-chain of the aggregation effect in `useTelemetryData`). -/
def bucketSizeFor (duration : Int) : Int :=
  if duration ≤ HOUR then MINUTE
  else if duration ≤ 6 * HOUR then 5 * MINUTE
  else if duration ≤ 24 * HOUR then 15 * MINUTE
  else HOUR

/-! ## Spec-side reference definitions -/

/-- Nearest-rank p95 as the spec words it: the ascending-sorted value
array indexed at `min(floor(count * 0.95), count - 1)`. -/
def nearestRankP95 (values : List ℚ) : ℚ :=
  let sorted := List.insertionSort (fun a b => a ≤ b) values
  sorted.getD (min (⌊(values.length : ℚ) * (95 / 100)⌋).toNat (values.length - 1)) 0

/-! ## Random-source lemmas and claim C4 -/

theorem mulberryOut_lt (s : Nat) : mulberryOut s < UINT32 := by
  unfold mulberryOut
  exact Nat.mod_lt _ (by norm_num [UINT32])

theorem rngStream_nonneg (seed n : Nat) : 0 ≤ rngStream seed n := by
  unfold rngStream rngNext
  positivity

theorem rngStream_lt_one (seed n : Nat) : rngStream seed n < 1 := by
  unfold rngStream rngNext
  rw [div_lt_one (by norm_num [UINT32])]
  exact_mod_cast mulberryOut_lt _

/-- C4: two random sources constructed from the same 32-bit seed produce
identical value sequences, each value lying in [0,1); and two generator
runs with the same seed (and the same id-salt clock reading) and the same
count and time range produce identical event datasets. -/
theorem c4_rng_generator_determinism :
    (∀ seed1 seed2 : Nat, seed1 = seed2 → ∀ n : Nat, rngStream seed1 n = rngStream seed2 n) ∧
    (∀ seed n : Nat, 0 ≤ rngStream seed n ∧ rngStream seed n < 1) ∧
    (∀ seed1 salt1 seed2 salt2 count : Nat, ∀ startTime endTime : Int,
      seed1 = seed2 → salt1 = salt2 →
      generateEvents seed1 salt1 count startTime endTime =
        generateEvents seed2 salt2 count startTime endTime) := by
  refine ⟨?_, ?_, ?_⟩
  · intro seed1 seed2 h n
    rw [h]
  · intro seed n
    exact ⟨rngStream_nonneg seed n, rngStream_lt_one seed n⟩
  · intro seed1 salt1 seed2 salt2 count startTime endTime h1 h2
    rw [h1, h2]

theorem c4_rng_generator_determinism_witness :
    rngStream 42 0 = rngStream 42 0 ∧
    (0 ≤ rngStream 42 0 ∧ rngStream 42 0 < 1) ∧
    generateEvents 42 7 3 0 1000 = generateEvents 42 7 3 0 1000 :=
  ⟨c4_rng_generator_determinism.1 42 42 rfl 0,
   c4_rng_generator_determinism.2.1 42 0,
   c4_rng_generator_determinism.2.2 42 7 42 7 3 0 1000 rfl rfl⟩

/-! ## Claim C9: consumer bucket-width policy -/

/-- C9: the bucket width is a deterministic step function of the active
time range's span: span ≤ 1 h gives 1-minute buckets, span ≤ 6 h gives
5-minute buckets, span ≤ 24 h gives 15-minute buckets, larger spans give
1-hour buckets; concretely 30 min, 3 h, 20 h, 48 h give 1 min, 5 min,
15 min, 1 h. -/
theorem c9_bucket_width_step_function :
    (∀ d : Int, d ≤ HOUR → bucketSizeFor d = MINUTE) ∧
    (∀ d : Int, HOUR < d → d ≤ 6 * HOUR → bucketSizeFor d = 5 * MINUTE) ∧
    (∀ d : Int, 6 * HOUR < d → d ≤ 24 * HOUR → bucketSizeFor d = 15 * MINUTE) ∧
    (∀ d : Int, 24 * HOUR < d → bucketSizeFor d = HOUR) ∧
    bucketSizeFor (30 * MINUTE) = MINUTE ∧
    bucketSizeFor (3 * HOUR) = 5 * MINUTE ∧
    bucketSizeFor (20 * HOUR) = 15 * MINUTE ∧
    bucketSizeFor (48 * HOUR) = HOUR := by
  have hH : (HOUR : Int) = 3600000 := by norm_num [HOUR, MINUTE]
  refine ⟨?_, ?_, ?_, ?_, by decide, by decide, by decide, by decide⟩
  · intro d h
    unfold bucketSizeFor
    rw [if_pos h]
  · intro d h1 h2
    unfold bucketSizeFor
    rw [if_neg (by omega), if_pos h2]
  · intro d h1 h2
    unfold bucketSizeFor
    rw [if_neg (by omega), if_neg (by omega), if_pos h2]
  · intro d h
    unfold bucketSizeFor
    rw [if_neg (by omega), if_neg (by omega), if_neg (by omega)]

theorem c9_bucket_width_step_function_witness :
    bucketSizeFor 0 = MINUTE ∧
    bucketSizeFor (2 * HOUR) = 5 * MINUTE ∧
    bucketSizeFor (12 * HOUR) = 15 * MINUTE ∧
    bucketSizeFor (25 * HOUR) = HOUR :=
  ⟨c9_bucket_width_step_function.1 0 (by decide),
   c9_bucket_width_step_function.2.1 (2 * HOUR) (by decide) (by decide),
   c9_bucket_width_step_function.2.2.1 (12 * HOUR) (by decide) (by decide),
   c9_bucket_width_step_function.2.2.2.1 (25 * HOUR) (by decide)⟩

/-! ## Claim C8: filter idempotence -/

/-- C8: filtering twice with the same filter state equals filtering once:
filter(filter(E, F), F) = filter(E, F). -/
theorem c8_filter_idempotent (events : List TelemetryEvent) (filters : FilterState) :
    filterEvents (filterEvents events filters) filters = filterEvents events filters := by
  unfold filterEvents
  rw [List.filter_filter]
  simp only [Bool.and_self]

/-! ## Claim C2: filter characterization -/

/-- C2 (counterexample to the claim as stated): under a non-empty search
query, an event lacking a message passes the filter and appears in the
result; the claim asserts no such event appears. -/
theorem c2_missing_message_passes_search :
    filterEvents
      [{ id := "a", timestamp := 5, value := 1, eventType := .log, service := .apiGateway,
         level := none, message := none }]
      { timeRange := { start := 0, endTime := 10 }, eventTypes := [], services := [],
        searchQuery := "x" } =
      [{ id := "a", timestamp := 5, value := 1, eventType := .log, service := .apiGateway,
         level := none, message := none }] := by
  decide

/-- C2 (amended): the filter returns exactly the events satisfying the
conjunction of the four clauses — timestamp within the inclusive range,
membership in a non-empty event-type set, membership in a non-empty
service set, and, for a non-empty query, that an event carrying a
non-empty message contains the query case-insensitively (an event with no
message, or an empty one, passes the search clause) — and the result is a
stable subsequence of the input. -/
theorem c2_filter_characterization (events : List TelemetryEvent) (filters : FilterState) :
    (filterEvents events filters).Sublist events ∧
    ∀ e, e ∈ filterEvents events filters ↔ e ∈ events ∧ matchesFilter filters e := by
  constructor
  · exact List.filter_sublist events
  · intro e
    unfold filterEvents
    rw [List.mem_filter, eventPasses_iff]

/-! ## Claim C7: bucket key floor semantics -/

theorem fdiv_eq_rat_floor (t w : Int) (hw : 0 < w) : ⌊(t : ℚ) / (w : ℚ)⌋ = t.fdiv w := by
  rw [Int.fdiv_eq_ediv _ hw.le]
  have h1 : ((w.toNat : ℕ) : ℚ) = (w : ℚ) := by exact_mod_cast Int.toNat_of_nonneg hw.le
  rw [← h1, Rat.floor_intCast_div_natCast, Int.toNat_of_nonneg hw.le]

/-- C7: for every event timestamp and every bucketWidth > 0 the bucket key
equals floor(timestamp / bucketWidth) * bucketWidth with the floor taken
toward negative infinity; concretely, an event at timestamp -1 with width
1000 lands in bucket -1000, not 0. -/
theorem c7_bucket_key_floor_division :
    (∀ t w : Int, 0 < w → bucketKey w t = ⌊(t : ℚ) / (w : ℚ)⌋ * w) ∧
    (aggregateEvents
      [{ id := "n", timestamp := -1, value := 5, eventType := .log, service := .apiGateway,
         level := none, message := none }] 1000).map (fun b => b.timestamp) = [-1000] := by
  constructor
  · intro t w hw
    unfold bucketKey
    rw [fdiv_eq_rat_floor t w hw]
  · decide

theorem c7_bucket_key_floor_division_witness :
    bucketKey 1000 (-1) = ⌊((-1 : Int) : ℚ) / ((1000 : Int) : ℚ)⌋ * 1000 :=
  c7_bucket_key_floor_division.1 (-1) 1000 (by decide)

/-! ## Generator lemmas and claim C3 -/

theorem floor_scaled_bound (nt : ℚ) (c : Int) (h0 : 0 ≤ nt) (h1 : nt ≤ 1) :
    min 0 c ≤ ⌊nt * (c : ℚ)⌋ ∧ ⌊nt * (c : ℚ)⌋ ≤ max 0 c := by
  rcases le_or_lt 0 c with hc | hc
  · have hcq : (0 : ℚ) ≤ (c : ℚ) := by exact_mod_cast hc
    have hlb : (0 : ℚ) ≤ nt * (c : ℚ) := mul_nonneg h0 hcq
    have hub : nt * (c : ℚ) ≤ (c : ℚ) := by nlinarith
    constructor
    · exact (min_le_left 0 c).trans (Int.le_floor.mpr (by exact_mod_cast hlb))
    · have h2 := Int.floor_mono hub
      rw [Int.floor_intCast] at h2
      exact h2.trans (le_max_right 0 c)
  · have hcq : (c : ℚ) ≤ 0 := by exact_mod_cast hc.le
    have hlb : (c : ℚ) ≤ nt * (c : ℚ) := by nlinarith
    have hub : nt * (c : ℚ) ≤ 0 := by nlinarith
    constructor
    · have h2 := Int.floor_mono hlb
      rw [Int.floor_intCast] at h2
      exact (min_le_right 0 c).trans h2
    · have h2 := Int.floor_mono hub
      rw [show ⌊(0 : ℚ)⌋ = (0 : Int) from Int.floor_zero] at h2
      exact h2.trans (le_max_left 0 c)

theorem genOne_timestamp_eq (salt : Nat) (startTime timeSpan : Int) (i s0 : Nat) :
    ∃ nt : ℚ, 0 ≤ nt ∧ nt ≤ 1 ∧
      (genOne salt startTime timeSpan i s0).2.timestamp = startTime + ⌊nt * (timeSpan : ℚ)⌋ :=
  ⟨_, le_max_left 0 _, max_le zero_le_one (min_le_left 1 _), rfl⟩

theorem genOne_timestamp_bound (salt : Nat) (startTime timeSpan : Int) (i s0 : Nat) :
    startTime + min 0 timeSpan ≤ (genOne salt startTime timeSpan i s0).2.timestamp ∧
      (genOne salt startTime timeSpan i s0).2.timestamp ≤ startTime + max 0 timeSpan := by
  obtain ⟨nt, h0, h1, heq⟩ := genOne_timestamp_eq salt startTime timeSpan i s0
  have hb := floor_scaled_bound nt timeSpan h0 h1
  rw [heq]
  omega

theorem genLoop_bound (salt : Nat) (startTime timeSpan : Int) :
    ∀ (idxs : List Nat) (acc : Nat × List TelemetryEvent),
      (∀ e ∈ acc.2, startTime + min 0 timeSpan ≤ e.timestamp ∧
        e.timestamp ≤ startTime + max 0 timeSpan) →
      ∀ e ∈ (idxs.foldl (genStep salt startTime timeSpan) acc).2,
        startTime + min 0 timeSpan ≤ e.timestamp ∧
          e.timestamp ≤ startTime + max 0 timeSpan := by
  intro idxs
  induction idxs with
  | nil => exact fun acc h => h
  | cons i rest ih =>
    intro acc h
    refine ih _ ?_
    intro e he
    simp only [genStep] at he
    rcases List.mem_append.mp he with h1 | h2
    · exact h e h1
    · have h3 : e = (genOne salt startTime timeSpan i acc.1).2 := List.mem_singleton.mp h2
      subst h3
      exact genOne_timestamp_bound salt startTime timeSpan i acc.1
/-- C3 (counterexample to the claim as stated): with timeRange.start = 1000
greater than timeRange.end = 0 the generated timestamp falls BELOW start
(the time span is not clamped to ≥ 0), refuting "timestamps not before
timeRange.start". -/
theorem c3_timestamp_before_start :
    (generateEvents 42 7 1 1000 0).all (fun e => decide (1000 ≤ e.timestamp)) = false := by
  have e3 : mulberryOut 5494697481 = 3661312704 := by decide
  have e4 : mulberryOut 7326263294 = 2876485805 := by decide
  have e5 : mulberryOut 9157829107 = 750819978 := by decide
  simp only [generateEvents, genStep, genOne, rngNext, MULBERRY_DELTA, UINT32,
    List.range_succ, List.range_zero, List.foldl, List.insertionSort, List.orderedInsert,
    List.nil_append, List.all_cons, List.all_nil, e3, e4, e5]
  norm_num [min_def, max_def]

/-- C3 (amended): generate(count, timeRange) does not fail: count = 0
yields the empty sequence, and the time span is NOT clamped — every
generated timestamp lies in [min(start, end), max(start, end)], so when
start > end the result is degenerate (timestamps may precede start, down
to end) but non-crashing. -/
theorem c3_generate_no_clamp_range (seed salt count : Nat) (startTime endTime : Int) :
    generateEvents seed salt 0 startTime endTime = [] ∧
    (generateEvents seed salt count startTime endTime).all
      (fun e => decide (min startTime endTime ≤ e.timestamp) &&
        decide (e.timestamp ≤ max startTime endTime)) = true := by
  constructor
  · rfl
  · rw [List.all_eq_true]
    intro e he
    simp only [generateEvents] at he
    have he2 := ((List.perm_insertionSort tsLE _).mem_iff).mp he
    have hb := genLoop_bound salt startTime (endTime - startTime) (List.range count)
      (seed, []) (by intro x hx; cases hx) e he2
    simp only [Bool.and_eq_true, decide_eq_true_eq]
    omega

/-! ## Aggregation lemmas -/

/-- First-match lookup of a bucket's value list by key. -/
def valuesAt (k : Int) : List (Int × List ℚ) → List ℚ
  | [] => []
  | (k2, vs) :: rest => if k2 = k then vs else valuesAt k rest

theorem valuesAt_insertBucket (k k2 : Int) (v : ℚ) (bs : List (Int × List ℚ)) :
    valuesAt k2 (insertBucket k v bs) =
      valuesAt k2 bs ++ (if k = k2 then [v] else []) := by
  induction bs with
  | nil => simp only [insertBucket, valuesAt, List.nil_append]
  | cons hd tl ih =>
    obtain ⟨k3, vs⟩ := hd
    by_cases h3 : k3 = k
    · subst h3
      simp only [insertBucket, if_pos rfl, valuesAt]
      by_cases h32 : k3 = k2
      · simp [h32]
      · simp [h32]
    · simp only [insertBucket, if_neg h3, valuesAt]
      by_cases h32 : k3 = k2
      · have hk2 : ¬(k = k2) := fun h => h3 (h32 ▸ h ▸ rfl)
        simp [h32, hk2]
      · simp [h32, ih]

theorem keys_insertBucket (k : Int) (v : ℚ) (bs : List (Int × List ℚ)) :
    (insertBucket k v bs).map Prod.fst =
      if k ∈ bs.map Prod.fst then bs.map Prod.fst else bs.map Prod.fst ++ [k] := by
  induction bs with
  | nil => simp [insertBucket]
  | cons hd tl ih =>
    obtain ⟨k3, vs⟩ := hd
    by_cases h3 : k3 = k
    · subst h3
      simp [insertBucket]
    · simp only [insertBucket, if_neg h3, List.map_cons, ih]
      have hne : ¬(k = k3) := fun h => h3 h.symm
      by_cases hm : k ∈ tl.map Prod.fst
      · simp [hm, List.mem_cons, hne]
      · simp [hm, List.mem_cons, hne]

theorem nodup_keys_insertBucket (k : Int) (v : ℚ) (bs : List (Int × List ℚ))
    (h : (bs.map Prod.fst).Nodup) : ((insertBucket k v bs).map Prod.fst).Nodup := by
  rw [keys_insertBucket]
  by_cases hm : k ∈ bs.map Prod.fst
  · simpa [hm] using h
  · rw [if_neg hm]
    rw [List.nodup_append]
    exact ⟨h, List.nodup_singleton k, by
      intro a ha hk
      rcases List.mem_singleton.mp hk with rfl
      exact hm ha⟩

theorem snd_ne_nil_insertBucket (k : Int) (v : ℚ) (bs : List (Int × List ℚ))
    (h : ∀ b ∈ bs, b.2 ≠ []) : ∀ b ∈ insertBucket k v bs, b.2 ≠ [] := by
  induction bs with
  | nil =>
    intro b hb
    rcases List.mem_singleton.mp hb with rfl
    simp
  | cons hd tl ih =>
    obtain ⟨k3, vs⟩ := hd
    by_cases h3 : k3 = k
    · subst h3
      intro b hb
      simp only [insertBucket, if_pos rfl] at hb
      rcases List.mem_cons.mp hb with rfl | hbt
      · simp
      · exact h b (List.mem_cons_of_mem _ hbt)
    · intro b hb
      simp only [insertBucket, if_neg h3] at hb
      rcases List.mem_cons.mp hb with rfl | hbt
      · exact h _ (List.mem_cons_self _ _)
      · exact ih (fun x hx => h x (List.mem_cons_of_mem _ hx)) b hbt

/-- Total multiset of values held in a bucket map. -/
def bucketVals (bs : List (Int × List ℚ)) : Multiset ℚ :=
  (bs.map fun b => ((b.2 : Multiset ℚ))).sum

theorem bucketVals_insertBucket (k : Int) (v : ℚ) (bs : List (Int × List ℚ)) :
    bucketVals (insertBucket k v bs) = v ::ₘ bucketVals bs := by
  induction bs with
  | nil => simp [insertBucket, bucketVals]
  | cons hd tl ih =>
    obtain ⟨k3, vs⟩ := hd
    by_cases h3 : k3 = k
    · subst h3
      simp only [insertBucket, if_true]
      simp only [bucketVals, List.map_cons, List.sum_cons]
      rw [show ((vs ++ [v] : List ℚ) : Multiset ℚ) = (vs : Multiset ℚ) + {v} from rfl]
      rw [← Multiset.singleton_add]
      abel
    · simp only [insertBucket]
      rw [if_neg h3]
      simp only [bucketVals, List.map_cons, List.sum_cons] at ih ⊢
      rw [ih, ← Multiset.singleton_add, ← Multiset.singleton_add]
      abel

theorem counts_insertBucket (k : Int) (v : ℚ) (bs : List (Int × List ℚ)) :
    ((insertBucket k v bs).map fun b => b.2.length).sum =
      ((bs.map fun b => b.2.length).sum) + 1 := by
  induction bs with
  | nil => simp [insertBucket]
  | cons hd tl ih =>
    obtain ⟨k3, vs⟩ := hd
    by_cases h3 : k3 = k
    · subst h3
      simp only [insertBucket, if_pos rfl, List.map_cons, List.sum_cons, List.length_append]
      simp
      omega
    · simp only [insertBucket, if_neg h3, List.map_cons, List.sum_cons, ih]
      omega

theorem foldl_insertBucket_valuesAt (w k : Int) (evs : List TelemetryEvent) :
    ∀ bs : List (Int × List ℚ),
      valuesAt k (evs.foldl (fun bs e => insertBucket (bucketKey w e.timestamp) e.value bs) bs) =
        valuesAt k bs ++
          ((evs.filter fun e => bucketKey w e.timestamp = k).map fun e => e.value) := by
  induction evs with
  | nil => intro bs; simp
  | cons e rest ih =>
    intro bs
    simp only [List.foldl_cons, List.filter_cons]
    rw [ih, valuesAt_insertBucket]
    by_cases hk : bucketKey w e.timestamp = k
    · simp [hk]
    · simp [hk]

theorem foldl_insertBucket_mem_keys (w k : Int) (evs : List TelemetryEvent) :
    ∀ bs : List (Int × List ℚ),
      (k ∈ (evs.foldl (fun bs e => insertBucket (bucketKey w e.timestamp) e.value bs) bs).map
          Prod.fst ↔
        k ∈ bs.map Prod.fst ∨ ∃ e ∈ evs, bucketKey w e.timestamp = k) := by
  induction evs with
  | nil => intro bs; simp
  | cons e rest ih =>
    intro bs
    simp only [List.foldl_cons]
    rw [ih, keys_insertBucket]
    by_cases hm : bucketKey w e.timestamp ∈ bs.map Prod.fst
    · rw [if_pos hm]
      constructor
      · rintro (h | ⟨x, hx, hxk⟩)
        · exact Or.inl h
        · exact Or.inr ⟨x, List.mem_cons_of_mem _ hx, hxk⟩
      · rintro (h | ⟨x, hx, hxk⟩)
        · exact Or.inl h
        · rcases List.mem_cons.mp hx with rfl | hxr
          · exact Or.inl (hxk ▸ hm)
          · exact Or.inr ⟨x, hxr, hxk⟩
    · rw [if_neg hm]
      constructor
      · rintro (h | ⟨x, hx, hxk⟩)
        · rcases List.mem_append.mp h with h2 | h2
          · exact Or.inl h2
          · rcases List.mem_singleton.mp h2 with rfl
            exact Or.inr ⟨e, List.mem_cons_self e rest, rfl⟩
        · exact Or.inr ⟨x, List.mem_cons_of_mem _ hx, hxk⟩
      · rintro (h | ⟨x, hx, hxk⟩)
        · exact Or.inl (List.mem_append_left _ h)
        · rcases List.mem_cons.mp hx with rfl | hxr
          · exact Or.inl (List.mem_append_right _ (by simp [hxk]))
          · exact Or.inr ⟨x, hxr, hxk⟩

theorem foldl_insertBucket_nodup (w : Int) (evs : List TelemetryEvent) :
    ∀ bs : List (Int × List ℚ), (bs.map Prod.fst).Nodup →
      ((evs.foldl (fun bs e => insertBucket (bucketKey w e.timestamp) e.value bs) bs).map
        Prod.fst).Nodup := by
  induction evs with
  | nil => exact fun bs h => h
  | cons e rest ih =>
    intro bs h
    simp only [List.foldl_cons]
    exact ih _ (nodup_keys_insertBucket _ _ _ h)

theorem foldl_insertBucket_snd_ne_nil (w : Int) (evs : List TelemetryEvent) :
    ∀ bs : List (Int × List ℚ), (∀ b ∈ bs, b.2 ≠ []) →
      ∀ b ∈ evs.foldl (fun bs e => insertBucket (bucketKey w e.timestamp) e.value bs) bs,
        b.2 ≠ [] := by
  induction evs with
  | nil => exact fun bs h => h
  | cons e rest ih =>
    intro bs h
    simp only [List.foldl_cons]
    exact ih _ (snd_ne_nil_insertBucket _ _ _ h)

theorem foldl_insertBucket_bucketVals (w : Int) (evs : List TelemetryEvent) :
    ∀ bs : List (Int × List ℚ),
      bucketVals (evs.foldl (fun bs e => insertBucket (bucketKey w e.timestamp) e.value bs) bs) =
        bucketVals bs + ((evs.map fun e => e.value : List ℚ) : Multiset ℚ) := by
  induction evs with
  | nil => intro bs; simp
  | cons e rest ih =>
    intro bs
    simp only [List.foldl_cons, List.map_cons]
    rw [ih, bucketVals_insertBucket]
    rw [show ((e.value :: List.map (fun e => e.value) rest : List ℚ) : Multiset ℚ) =
      e.value ::ₘ ((List.map (fun e => e.value) rest : List ℚ) : Multiset ℚ) from rfl]
    rw [← Multiset.singleton_add, ← Multiset.singleton_add]
    abel

theorem foldl_insertBucket_counts (w : Int) (evs : List TelemetryEvent) :
    ∀ bs : List (Int × List ℚ),
      ((evs.foldl (fun bs e => insertBucket (bucketKey w e.timestamp) e.value bs) bs).map
          fun b => b.2.length).sum =
        ((bs.map fun b => b.2.length).sum) + evs.length := by
  induction evs with
  | nil => intro bs; simp
  | cons e rest ih =>
    intro bs
    simp only [List.foldl_cons, List.length_cons]
    rw [ih, counts_insertBucket]
    omega

theorem buildBuckets_valuesAt (w k : Int) (evs : List TelemetryEvent) :
    valuesAt k (buildBuckets w evs) =
      (evs.filter fun e => bucketKey w e.timestamp = k).map fun e => e.value := by
  unfold buildBuckets
  rw [foldl_insertBucket_valuesAt]
  rfl

theorem buildBuckets_mem_keys (w k : Int) (evs : List TelemetryEvent) :
    k ∈ (buildBuckets w evs).map Prod.fst ↔ ∃ e ∈ evs, bucketKey w e.timestamp = k := by
  unfold buildBuckets
  rw [foldl_insertBucket_mem_keys]
  simp

theorem buildBuckets_nodup (w : Int) (evs : List TelemetryEvent) :
    ((buildBuckets w evs).map Prod.fst).Nodup := by
  unfold buildBuckets
  exact foldl_insertBucket_nodup w evs [] (by simp)

theorem buildBuckets_snd_ne_nil (w : Int) (evs : List TelemetryEvent) :
    ∀ b ∈ buildBuckets w evs, b.2 ≠ [] := by
  unfold buildBuckets
  exact foldl_insertBucket_snd_ne_nil w evs [] (by simp)

theorem buildBuckets_bucketVals (w : Int) (evs : List TelemetryEvent) :
    bucketVals (buildBuckets w evs) = ((evs.map fun e => e.value : List ℚ) : Multiset ℚ) := by
  unfold buildBuckets
  rw [foldl_insertBucket_bucketVals]
  simp [bucketVals]

theorem buildBuckets_counts (w : Int) (evs : List TelemetryEvent) :
    ((buildBuckets w evs).map fun b => b.2.length).sum = evs.length := by
  unfold buildBuckets
  rw [foldl_insertBucket_counts]
  simp

theorem entry_eq_valuesAt (bs : List (Int × List ℚ)) (h : (bs.map Prod.fst).Nodup) :
    ∀ b ∈ bs, b.2 = valuesAt b.1 bs := by
  induction bs with
  | nil => intro b hb; cases hb
  | cons hd tl ih =>
    intro b hb
    obtain ⟨k3, vs⟩ := hd
    rcases List.mem_cons.mp hb with rfl | hbt
    · simp [valuesAt]
    · have h2 : k3 ∉ tl.map Prod.fst ∧ (tl.map Prod.fst).Nodup := by
        rw [List.map_cons] at h
        exact List.nodup_cons.mp h
      have hk : k3 ≠ b.1 := by
        intro hk
        exact h2.1 (hk ▸ List.mem_map_of_mem Prod.fst hbt)
      simp only [valuesAt, if_neg hk]
      exact ih h2.2 b hbt

theorem aggregateBucket_timestamp (k : Int) (vs : List ℚ) :
    (aggregateBucket k vs).timestamp = k := rfl

theorem aggregateBucket_count (k : Int) (vs : List ℚ) :
    (aggregateBucket k vs).count = vs.length := by
  simp only [aggregateBucket]
  exact (List.perm_insertionSort _ vs).length_eq

theorem mem_aggregateEvents (events : List TelemetryEvent) (w : Int) (b : AggregatedData) :
    b ∈ aggregateEvents events w ↔
      ∃ p ∈ buildBuckets w events, b = aggregateBucket p.1 p.2 := by
  unfold aggregateEvents
  by_cases h : events.length = 0
  · rw [if_pos h]
    rcases List.length_eq_zero.mp h with rfl
    simp [buildBuckets]
  · rw [if_neg h]
    rw [(List.perm_insertionSort aggLE _).mem_iff]
    simp only [List.mem_map]
    constructor
    · rintro ⟨p, hp, rfl⟩
      exact ⟨p, hp, rfl⟩
    · rintro ⟨p, hp, rfl⟩
      exact ⟨p, hp, rfl⟩

theorem aggregate_bucket_form (events : List TelemetryEvent) (w : Int) (b : AggregatedData)
    (hb : b ∈ aggregateEvents events w) :
    b = aggregateBucket b.timestamp
        ((events.filter fun e => bucketKey w e.timestamp = b.timestamp).map fun e => e.value) ∧
      (∃ e ∈ events, bucketKey w e.timestamp = b.timestamp) ∧
      ((events.filter fun e => bucketKey w e.timestamp = b.timestamp).map
        fun e => e.value) ≠ [] := by
  obtain ⟨p, hp, rfl⟩ := (mem_aggregateEvents events w b).mp hb
  have hts : (aggregateBucket p.1 p.2).timestamp = p.1 := aggregateBucket_timestamp p.1 p.2
  have hvals : p.2 = valuesAt p.1 (buildBuckets w events) :=
    entry_eq_valuesAt _ (buildBuckets_nodup w events) p hp
  have hkey : ∃ e ∈ events, bucketKey w e.timestamp = p.1 :=
    (buildBuckets_mem_keys w p.1 events).mp (List.mem_map_of_mem Prod.fst hp)
  have hne : p.2 ≠ [] := buildBuckets_snd_ne_nil w events p hp
  rw [hts]
  refine ⟨?_, hkey, ?_⟩
  · rw [← buildBuckets_valuesAt, ← hvals]
  · rw [← buildBuckets_valuesAt, ← hvals]
    exact hne

theorem foldl_add_eq_sum (l : List ℚ) : ∀ a : ℚ, l.foldl (fun acc v => acc + v) a = a + l.sum := by
  induction l with
  | nil => intro a; simp
  | cons x t ih =>
    intro a
    simp only [List.foldl_cons, List.sum_cons]
    rw [ih]
    ring

theorem sorted_getD_zero_le {l : List ℚ} (hs : List.Sorted (fun a b => a ≤ b) l) :
    ∀ x ∈ l, l.getD 0 0 ≤ x := by
  cases l with
  | nil => intro x hx; cases hx
  | cons a t =>
    intro x hx
    rcases List.mem_cons.mp hx with rfl | hxt
    · simp [List.getD_cons_zero]
    · simpa [List.getD_cons_zero] using (List.sorted_cons.mp hs).1 x hxt

theorem sorted_le_getD_last {l : List ℚ} (hs : List.Sorted (fun a b => a ≤ b) l) :
    ∀ x ∈ l, x ≤ l.getD (l.length - 1) 0 := by
  induction l with
  | nil => intro x hx; cases hx
  | cons a t ih =>
    intro x hx
    cases t with
    | nil =>
      rcases List.mem_singleton.mp hx with rfl
      simp [List.getD_cons_zero]
    | cons b t2 =>
      have hlast : (a :: b :: t2).getD ((a :: b :: t2).length - 1) 0 =
          (b :: t2).getD ((b :: t2).length - 1) 0 := by
        simp only [List.length_cons]
        rw [show b :: t2 = (b :: t2) from rfl]
        rw [show t2.length + 1 + 1 - 1 = (t2.length + 1 - 1) + 1 by omega]
        exact List.getD_cons_succ
      rw [hlast]
      rcases List.mem_cons.mp hx with rfl | hxt
      · have hlt : (b :: t2).length - 1 < (b :: t2).length := by simp
        have hmem : (b :: t2).getD ((b :: t2).length - 1) 0 ∈ b :: t2 := by
          rw [List.getD_eq_getElem?_getD, List.getElem?_eq_getElem hlt]
          exact List.getElem_mem hlt
        exact (List.sorted_cons.mp hs).1 _ hmem
      · exact ih (List.sorted_cons.mp hs).2 x hxt

theorem aggregateBucket_sum (k : Int) (vs : List ℚ) : (aggregateBucket k vs).sum = vs.sum := by
  show (List.insertionSort (fun a b => a ≤ b) vs).foldl (fun acc v => acc + v) 0 = vs.sum
  rw [foldl_add_eq_sum, zero_add, (List.perm_insertionSort (fun a b => a ≤ b) vs).sum_eq]

theorem aggregateBucket_stats (k : Int) (vs : List ℚ) (hvs : vs ≠ []) :
    1 ≤ (aggregateBucket k vs).count ∧
    (aggregateBucket k vs).avg = (aggregateBucket k vs).sum / ((aggregateBucket k vs).count : ℚ) ∧
    (aggregateBucket k vs).min ≤ (aggregateBucket k vs).avg ∧
    (aggregateBucket k vs).avg ≤ (aggregateBucket k vs).max ∧
    (aggregateBucket k vs).min ≤ (aggregateBucket k vs).p95 ∧
    (aggregateBucket k vs).p95 ≤ (aggregateBucket k vs).max := by
  have hperm := List.perm_insertionSort (fun a b => a ≤ b) vs
  have hlen : (List.insertionSort (fun a b => a ≤ b) vs).length = vs.length := hperm.length_eq
  have hpos : 0 < vs.length := List.length_pos.mpr hvs
  have hsort : List.Sorted (fun a b => a ≤ b) (List.insertionSort (fun a b => a ≤ b) vs) :=
    List.sorted_insertionSort _ vs
  have hC : (aggregateBucket k vs).count = (List.insertionSort (fun a b => a ≤ b) vs).length :=
    rfl
  have hS : (aggregateBucket k vs).sum = (List.insertionSort (fun a b => a ≤ b) vs).sum := by
    rw [aggregateBucket_sum, hperm.sum_eq]
  have hA : (aggregateBucket k vs).avg =
      (aggregateBucket k vs).sum / ((aggregateBucket k vs).count : ℚ) := rfl
  have hMin : (aggregateBucket k vs).min =
      (List.insertionSort (fun a b => a ≤ b) vs).getD 0 0 := rfl
  have hMax : (aggregateBucket k vs).max =
      (List.insertionSort (fun a b => a ≤ b) vs).getD
        ((List.insertionSort (fun a b => a ≤ b) vs).length - 1) 0 := rfl
  have hcpos : (0 : ℚ) < ((aggregateBucket k vs).count : ℚ) := by
    rw [hC]
    exact_mod_cast hlen ▸ hpos
  have hp95mem : (aggregateBucket k vs).p95 ∈ List.insertionSort (fun a b => a ≤ b) vs := by
    have h1 : 0 < (List.insertionSort (fun a b => a ≤ b) vs).length := hlen ▸ hpos
    have hidx : ∀ n : Nat, min n ((List.insertionSort (fun a b => a ≤ b) vs).length - 1) <
        (List.insertionSort (fun a b => a ≤ b) vs).length := by
      intro n
      omega
    show (List.insertionSort (fun a b => a ≤ b) vs).getD
      (min _ ((List.insertionSort (fun a b => a ≤ b) vs).length - 1)) 0 ∈ _
    rw [List.getD_eq_getElem?_getD, List.getElem?_eq_getElem (hidx _)]
    simp only [Option.getD_some]
    exact List.getElem_mem (hidx _)
  refine ⟨?_, hA, ?_, ?_, ?_, ?_⟩
  · rw [hC]
    omega
  · rw [hA, le_div_iff₀ hcpos, hS, hC, hMin]
    have hb := List.card_nsmul_le_sum (List.insertionSort (fun a b => a ≤ b) vs)
      ((List.insertionSort (fun a b => a ≤ b) vs).getD 0 0)
      (sorted_getD_zero_le hsort)
    rw [nsmul_eq_mul] at hb
    calc (List.insertionSort (fun a b => a ≤ b) vs).getD 0 0 *
        ((List.insertionSort (fun a b => a ≤ b) vs).length : ℚ) =
        ((List.insertionSort (fun a b => a ≤ b) vs).length : ℚ) *
          (List.insertionSort (fun a b => a ≤ b) vs).getD 0 0 := by ring
      _ ≤ _ := hb
  · rw [hA, div_le_iff₀ hcpos, hS, hC, hMax]
    have hb := List.sum_le_card_nsmul (List.insertionSort (fun a b => a ≤ b) vs)
      ((List.insertionSort (fun a b => a ≤ b) vs).getD
        ((List.insertionSort (fun a b => a ≤ b) vs).length - 1) 0)
      (sorted_le_getD_last hsort)
    rw [nsmul_eq_mul] at hb
    calc (List.insertionSort (fun a b => a ≤ b) vs).sum ≤ _ := hb
      _ = (List.insertionSort (fun a b => a ≤ b) vs).getD
            ((List.insertionSort (fun a b => a ≤ b) vs).length - 1) 0 *
          ((List.insertionSort (fun a b => a ≤ b) vs).length : ℚ) := by ring
  · rw [hMin]
    exact sorted_getD_zero_le hsort _ hp95mem
  · rw [hMax]
    exact sorted_le_getD_last hsort _ hp95mem

theorem aggregateEvents_counts_sum (events : List TelemetryEvent) (w : Int) :
    ((aggregateEvents events w).map fun b => b.count).sum = events.length := by
  unfold aggregateEvents
  by_cases h : events.length = 0
  · rw [if_pos h, h]
    rfl
  · rw [if_neg h]
    rw [((List.perm_insertionSort aggLE
      ((buildBuckets w events).map fun b => aggregateBucket b.1 b.2)).map
        fun b => b.count).sum_eq]
    rw [List.map_map]
    rw [show ((fun b : AggregatedData => b.count) ∘ fun b : Int × List ℚ =>
        aggregateBucket b.1 b.2) = fun b : Int × List ℚ => b.2.length by
      funext p
      exact aggregateBucket_count p.1 p.2]
    exact buildBuckets_counts w events

theorem mem_keys_pair (bs : List (Int × List ℚ)) (t : Int) (ht : t ∈ bs.map Prod.fst) :
    (t, valuesAt t bs) ∈ bs := by
  induction bs with
  | nil => cases ht
  | cons hd tl ih =>
    obtain ⟨k3, vs⟩ := hd
    by_cases h3 : k3 = t
    · subst h3
      simp [valuesAt]
    · simp only [valuesAt, if_neg h3]
      have ht2 : t ∈ tl.map Prod.fst := by
        rw [List.map_cons] at ht
        rcases List.mem_cons.mp ht with h | h
        · exact absurd h.symm h3
        · exact h
      exact List.mem_cons_of_mem _ (ih ht2)

/-- C6: aggregation partition: for bucketWidth > 0 the multiset union of
the per-bucket value collections equals the multiset of input event
values, the bucket counts sum to the input length, the empty input gives
the empty output, and the output bucket timestamps are exactly the
distinct bucket keys observed in the input (no zero-filled buckets). -/
theorem c6_aggregation_partition (events : List TelemetryEvent) (w : Int) (_hw : 0 < w) :
    bucketVals (buildBuckets w events) = ((events.map fun e => e.value : List ℚ) : Multiset ℚ) ∧
    ((aggregateEvents events w).map fun b => b.count).sum = events.length ∧
    aggregateEvents [] w = [] ∧
    ∀ t : Int, (∃ b ∈ aggregateEvents events w, b.timestamp = t) ↔
      ∃ e ∈ events, bucketKey w e.timestamp = t := by
  refine ⟨buildBuckets_bucketVals w events, aggregateEvents_counts_sum events w, rfl, ?_⟩
  intro t
  constructor
  · rintro ⟨b, hb, rfl⟩
    exact (aggregate_bucket_form events w b hb).2.1
  · rintro ⟨e, he, hk⟩
    have ht : t ∈ (buildBuckets w events).map Prod.fst :=
      (buildBuckets_mem_keys w t events).mpr ⟨e, he, hk⟩
    refine ⟨aggregateBucket t (valuesAt t (buildBuckets w events)), ?_, rfl⟩
    exact (mem_aggregateEvents events w _).mpr
      ⟨(t, valuesAt t (buildBuckets w events)), mem_keys_pair _ t ht, rfl⟩

/-- Concrete event used to exercise the aggregation-partition theorem. -/
def evPartition : TelemetryEvent :=
  { id := "c", timestamp := 1500, value := 20, eventType := .metric,
    service := .authService, level := none, message := none }

theorem c6_aggregation_partition_witness :
    bucketVals (buildBuckets 1000 [evPartition]) =
      (([evPartition].map fun e => e.value : List ℚ) : Multiset ℚ) ∧
    ((aggregateEvents [evPartition] 1000).map fun b => b.count).sum =
      [evPartition].length :=
  ⟨(c6_aggregation_partition [evPartition] 1000 (by norm_num)).1,
   (c6_aggregation_partition [evPartition] 1000 (by norm_num)).2.1⟩

/-- The aggregation engine on a one-event list: a single bucket holding
that event's value. -/
theorem aggregateEvents_singleton (e : TelemetryEvent) (w : Int) :
    aggregateEvents [e] w = [aggregateBucket (bucketKey w e.timestamp) [e.value]] := by
  unfold aggregateEvents
  rw [if_neg (by simp)]
  rfl

/-- Bucket statistics of a single value. -/
theorem aggregateBucket_singleton (k : Int) (v : ℚ) :
    aggregateBucket k [v] =
      { timestamp := k, count := 1, avg := v, sum := v, min := v, max := v, p95 := v } := by
  simp only [aggregateBucket]
  rw [show List.insertionSort (fun a b => a ≤ b) [v] = [v] from rfl]
  simp only [List.foldl_cons, List.foldl_nil, List.length_cons, List.length_nil,
    AggregatedData.mk.injEq]
  norm_num [List.getD_cons_zero]

/-- C1 (counterexample to the claim as stated): a negative bucketWidth is
accepted and produces a normal aggregated result — no InvalidArgument
condition arises anywhere in `aggregateEvents`. -/
theorem c1_negative_width_normal_result :
    aggregateEvents
      [{ id := "e", timestamp := 500, value := 10, eventType := .log, service := .apiGateway,
         level := none, message := none }] (-1000) =
      [({ timestamp := 1000, count := 1, avg := 10, sum := 10, min := 10, max := 10,
          p95 := 10 } : AggregatedData)] := by
  have hk : bucketKey (-1000) ((500 : Int)) = 1000 := by decide
  simp [aggregateEvents_singleton, aggregateBucket_singleton, hk]

/-- C1 (amended): `aggregateEvents` performs no bucketWidth validation:
for every negative bucketWidth it returns a normal aggregation covering
every input event (bucket counts sum to the input length) instead of
failing with an InvalidArgument condition; at bucketWidth = 0 the
JavaScript source likewise does not fail but produces NaN bucket keys
from the division by zero. -/
theorem c1_aggregate_no_width_validation (events : List TelemetryEvent) (w : Int)
    (_hw : w < 0) :
    ((aggregateEvents events w).map fun b => b.count).sum = events.length :=
  aggregateEvents_counts_sum events w

/-- Concrete event used to exercise the no-width-validation theorem. -/
def evNegWidth : TelemetryEvent :=
  { id := "f", timestamp := 500, value := 7, eventType := .trace,
    service := .userService, level := none, message := none }

theorem c1_aggregate_no_width_validation_witness :
    ((aggregateEvents [evNegWidth] (-1000)).map fun b => b.count).sum =
      [evNegWidth].length :=
  c1_aggregate_no_width_validation [evNegWidth] (-1000) (by norm_num)

/-- C10: every bucket produced by aggregation has count ≥ 1,
avg = sum / count, min ≤ avg ≤ max and min ≤ p95 ≤ max. -/
theorem c10_bucket_stats_invariant (events : List TelemetryEvent) (w : Int) (_hw : 0 < w) :
    (aggregateEvents events w).all (fun b =>
      decide (1 ≤ b.count) && decide (b.avg = b.sum / (b.count : ℚ)) &&
      decide (b.min ≤ b.avg) && decide (b.avg ≤ b.max) &&
      decide (b.min ≤ b.p95) && decide (b.p95 ≤ b.max)) = true := by
  rw [List.all_eq_true]
  intro b hb
  obtain ⟨hform, _, hne⟩ := aggregate_bucket_form events w b hb
  obtain ⟨h1, h2, h3, h4, h5, h6⟩ := aggregateBucket_stats b.timestamp _ hne
  rw [← hform] at h1 h2 h3 h4 h5 h6
  simp only [Bool.and_eq_true, decide_eq_true_eq]
  exact ⟨⟨⟨⟨⟨h1, h2⟩, h3⟩, h4⟩, h5⟩, h6⟩

theorem c10_bucket_stats_invariant_witness :
    (aggregateEvents
      [{ id := "g", timestamp := 2500, value := 4, eventType := .span,
         service := .paymentService, level := none, message := none }] 1000).all (fun b =>
      decide (1 ≤ b.count) && decide (b.avg = b.sum / (b.count : ℚ)) &&
      decide (b.min ≤ b.avg) && decide (b.avg ≤ b.max) &&
      decide (b.min ≤ b.p95) && decide (b.p95 ≤ b.max)) = true :=
  c10_bucket_stats_invariant _ 1000 (by norm_num)

/-! ## Claim C5: nearest-rank p95 -/

theorem aggregateBucket_p95_eq (k : Int) (vs : List ℚ) :
    (aggregateBucket k vs).p95 = nearestRankP95 vs := by
  simp only [aggregateBucket, nearestRankP95]
  rw [(List.perm_insertionSort (fun a b => a ≤ b) vs).length_eq]

theorem buildBuckets_const_aux (w k : Int) (evs : List TelemetryEvent) :
    ∀ vs : List ℚ, (∀ e ∈ evs, bucketKey w e.timestamp = k) →
      evs.foldl (fun bs e => insertBucket (bucketKey w e.timestamp) e.value bs) [(k, vs)] =
        [(k, vs ++ evs.map fun e => e.value)] := by
  induction evs with
  | nil => intro vs _; simp
  | cons e rest ih =>
    intro vs h
    simp only [List.foldl_cons]
    rw [show bucketKey w e.timestamp = k from h e (List.mem_cons_self e rest)]
    rw [show insertBucket k e.value [(k, vs)] = [(k, vs ++ [e.value])] by
      simp [insertBucket]]
    rw [ih _ (fun x hx => h x (List.mem_cons_of_mem _ hx))]
    simp

theorem buildBuckets_const (w k : Int) (evs : List TelemetryEvent) (hne : evs ≠ [])
    (h : ∀ x ∈ evs, bucketKey w x.timestamp = k) :
    buildBuckets w evs = [(k, evs.map fun x => x.value)] := by
  cases evs with
  | nil => exact absurd rfl hne
  | cons e rest =>
    unfold buildBuckets
    simp only [List.foldl_cons]
    rw [show bucketKey w e.timestamp = k from h e (List.mem_cons_self e rest)]
    rw [show insertBucket k e.value [] = [(k, [e.value])] from rfl]
    rw [buildBuckets_const_aux w k rest [e.value] (fun x hx => h x (List.mem_cons_of_mem _ hx))]
    simp

/-- One hundred events with values 1..100 in a single time bucket, the
spec's concrete p95 test case. -/
def evs100 : List TelemetryEvent :=
  (List.range 100).map fun (i : ℕ) =>
    { id := "v", timestamp := 0, value := (i : ℚ) + 1, eventType := .log,
      service := .apiGateway, level := none, message := none }

/-- C5: the reported p95 of every non-empty bucket is the nearest-rank
percentile — the ascending-sorted value array indexed at
min(floor(count * 0.95), count - 1), not interpolated; a bucket of the
100 values 1..100 has p95 = 96, and a single-event bucket has p95 equal
to that event's value. -/
theorem c5_p95_nearest_rank :
    (∀ (events : List TelemetryEvent) (w : Int), 0 < w →
      (aggregateEvents events w).all (fun b => decide (b.p95 =
        nearestRankP95 ((events.filter fun e => bucketKey w e.timestamp = b.timestamp).map
          fun e => e.value))) = true) ∧
    (aggregateEvents evs100 1000).map (fun b => b.p95) = [96] ∧
    ∀ (e : TelemetryEvent) (w : Int), 0 < w →
      (aggregateEvents [e] w).map (fun b => b.p95) = [e.value] := by
  refine ⟨?_, ?_, ?_⟩
  · intro events w _hw
    rw [List.all_eq_true]
    intro b hb
    obtain ⟨p, hp, rfl⟩ := (mem_aggregateEvents events w b).mp hb
    have hvals : p.2 = valuesAt p.1 (buildBuckets w events) :=
      entry_eq_valuesAt _ (buildBuckets_nodup w events) p hp
    simp only [decide_eq_true_eq, aggregateBucket_timestamp]
    rw [← buildBuckets_valuesAt, ← hvals]
    exact aggregateBucket_p95_eq p.1 p.2
  · have hkey : ∀ x ∈ evs100, bucketKey 1000 x.timestamp = 0 := by
      intro x hx
      obtain ⟨i, _, rfl⟩ := List.mem_map.mp hx
      show bucketKey 1000 (0 : Int) = 0
      decide
    have hlen : evs100.length = 100 := by
      simp [evs100]
    have hne : evs100 ≠ [] := by
      intro h
      rw [h] at hlen
      simp at hlen
    have hbb : buildBuckets 1000 evs100 = [(0, evs100.map fun x => x.value)] :=
      buildBuckets_const 1000 0 evs100 hne hkey
    have hagg : aggregateEvents evs100 1000 =
        [aggregateBucket 0 (evs100.map fun x => x.value)] := by
      unfold aggregateEvents
      rw [if_neg (by rw [hlen]; norm_num), hbb]
      rfl
    rw [hagg]
    simp only [List.map_cons, List.map_nil]
    congr 1
    rw [aggregateBucket_p95_eq]
    have hvals : evs100.map (fun x => x.value) =
        (List.range 100).map fun (i : ℕ) => (i : ℚ) + 1 := by
      simp only [evs100, List.map_map]
      rfl
    rw [hvals]
    have hsorted : List.Sorted (fun a b => a ≤ b)
        ((List.range 100).map fun (i : ℕ) => (i : ℚ) + 1) := by
      refine List.Pairwise.map _ ?_ (List.pairwise_lt_range 100)
      intro a b hab
      have h1 : (a : ℚ) ≤ (b : ℚ) := by exact_mod_cast hab.le
      linarith
    unfold nearestRankP95
    rw [hsorted.insertionSort_eq]
    simp only [List.length_map, List.length_range]
    have hfloor : (⌊((100 : ℕ) : ℚ) * (95 / 100)⌋).toNat = 95 := by
      rw [show ⌊((100 : ℕ) : ℚ) * (95 / 100)⌋ = 95 by norm_num]
      rfl
    rw [hfloor]
    rw [show min 95 (100 - 1) = 95 by norm_num]
    rw [List.getD_eq_getElem?_getD, List.getElem?_map, List.getElem?_range (by norm_num)]
    norm_num
  · intro e w _hw
    rw [aggregateEvents_singleton, aggregateBucket_singleton]
    rfl

theorem c5_p95_nearest_rank_witness :
    ((aggregateEvents [evPartition] 1000).all (fun b => decide (b.p95 =
      nearestRankP95 (([evPartition].filter fun e => bucketKey 1000 e.timestamp = b.timestamp).map
        fun e => e.value))) = true) ∧
    (aggregateEvents [evPartition] 500).map (fun b => b.p95) = [evPartition.value] :=
  ⟨c5_p95_nearest_rank.1 [evPartition] 1000 (by norm_num),
   c5_p95_nearest_rank.2.2 evPartition 500 (by norm_num)⟩
